import Mathlib

/-!
Verification of the TreeSong core: the song collection with its derived
genre-based connection graph (`SongCollection` in
`src/app/core/services/graph-layout.ts`), the genre compatibility service
(`GenreRelationship`), and the force-directed layout engine (`GraphLayout`).

The TypeScript code is shallowly embedded:
* `Map<string, V>` becomes an association list `List (String × V)` with the
  Map operations (`get`/`set`/`delete`) as recursive functions; a JavaScript
  `Set<string>` becomes a duplicate-free `List String` with `Set.add`
  modelled by `setAdd`.
* Numbers handled by the layout arithmetic become `ℚ`.
* The third-party ForceAtlas2 simulation (an external collaborator that
  merely assigns raw coordinates to node ids, and may throw) is a parameter
  of each layout operation: `Except Unit (String → ℚ × ℚ)`, `Except.error`
  standing for a thrown exception.  `Math.random()` becomes a parameter
  `rand : Nat → ℚ` consumed two draws per node in order.
-/

/-- `Song` from `src/app/core/models/models.ts` (`addedAt : Date` becomes a
numeric timestamp). -/
structure Song where
  id : String
  title : String
  artist : String
  genres : List String
  subgenre : Option String := none
  addedAt : Nat := 0
deriving DecidableEq, Repr

/-- `GraphNode` from `src/app/core/models/models.ts`; the optional
`connections` field defaults to the empty list. -/
structure GraphNode where
  id : String
  song : Song
  x : ℚ
  y : ℚ
  connections : List String := []
deriving DecidableEq, Repr

section AssocMap

variable {α : Type}

/-- `Map.get`: value of the first entry with the given key. -/
def lookupA : List (String × α) → String → Option α
  | [], _ => none
  | p :: m, k => if p.1 = k then some p.2 else lookupA m k

/-- `Map.set`: replace the first entry with the given key in place, or
append a fresh entry. -/
def setA : List (String × α) → String → α → List (String × α)
  | [], k, v => [(k, v)]
  | p :: m, k, v => if p.1 = k then (k, v) :: m else p :: setA m k v

/-- `Map.delete`: drop the first entry with the given key. -/
def delA : List (String × α) → String → List (String × α)
  | [], _ => []
  | p :: m, k => if p.1 = k then m else p :: delA m k

end AssocMap

/-- `Set.add` on a string set: append unless already present. -/
def setAdd (l : List String) (x : String) : List String :=
  if x ∈ l then l else l ++ [x]

/-! ## Genre compatibility (`GenreRelationship` in `spotify-auth.ts`) -/

/-- Character-list prefix test (the needle starts the haystack); used to
implement JavaScript's `String.prototype.includes`. -/
def listLeads : List Char → List Char → Bool
  | [], _ => true
  | _ :: _, [] => false
  | a :: as, b :: bs => (a == b) && listLeads as bs

/-- Scan of `String.prototype.includes`: the needle occurs contiguously
somewhere in the haystack. -/
def listScan : List Char → List Char → Bool
  | needle, [] => listLeads needle []
  | needle, hay@(_ :: rest) => listLeads needle hay || listScan needle rest

/-- JavaScript `s.includes(t)`. -/
def strIncludes (s t : String) : Bool := listScan t.data s.data

/-- JavaScript `s.toLowerCase()` (character-wise lower-casing, spelled out
over the character list so that it evaluates in the kernel). -/
def strToLower (s : String) : String := ⟨s.data.map Char.toLower⟩

/-- `GenreRelationship.hasMatch`: lower-case both genre strings and test
substring containment in either direction. -/
def hasMatch (genre1 genre2 : String) : Bool :=
  let words1 := strToLower genre1
  let words2 := strToLower genre2
  strIncludes words1 words2 || strIncludes words2 words1

/-- `GenreRelationship.areCompatible`: at least one matching pair across the
cross product of the two genre lists. -/
def areCompatible (genres1 genres2 : List String) : Bool :=
  genres1.any fun g1 => genres2.any fun g2 => hasMatch g1 g2


/-! ## Song collection (`SongCollection` in `graph-layout.ts`)

The `songs` map is keyed by `song.id` (the service only ever stores a song
under its own id), so it is embedded as a plain list of songs looked up by
id; `connections` keeps the `Map<string, Set<string>>` shape. -/

/-- `this.songs().get(id)` (the key of every stored entry is its song's id). -/
def findSong : List Song → String → Option Song
  | [], _ => none
  | s :: l, i => if s.id = i then some s else findSong l i

/-- `this.songs().delete(id)` on the id-keyed map. -/
def removeSongEntry : List Song → String → List Song
  | [], _ => []
  | s :: l, i => if s.id = i then l else s :: removeSongEntry l i

/-- State owned by the `SongCollection` service: the two signals. -/
structure SongCollection where
  songs : List Song
  connections : List (String × List String)
deriving DecidableEq, Repr

/-- `SongCollection.getSong`. -/
def SongCollection.getSong (st : SongCollection) (songId : String) : Option Song :=
  findSong st.songs songId

/-- Computed signal `allSongs` (map values in insertion order). -/
def SongCollection.allSongs (st : SongCollection) : List Song :=
  st.songs

/-- Computed signal `songCount`. -/
def SongCollection.songCount (st : SongCollection) : Nat :=
  st.songs.length

/-- The connection set stored for `a` (empty when the map has no entry). -/
def connList (st : SongCollection) (a : String) : List String :=
  (lookupA st.connections a).getD []

/-- `b` is recorded in `a`'s connection set. -/
def ConnMem (st : SongCollection) (a b : String) : Prop :=
  b ∈ connList st a

instance (st : SongCollection) (a b : String) : Decidable (ConnMem st a b) :=
  inferInstanceAs (Decidable (_ ∈ _))

/-- `SongCollection.areConnected`. -/
def SongCollection.areConnected (st : SongCollection) (songId1 songId2 : String) : Bool :=
  match lookupA st.connections songId1 with
  | some l => decide (songId2 ∈ l)
  | none => false

/-- `SongCollection.getConnectedSongs`. -/
def SongCollection.getConnectedSongs (st : SongCollection) (songId : String) : List Song :=
  match lookupA st.connections songId with
  | none => []
  | some ids => ids.filterMap st.getSong

/-- Private `SongCollection.addConnection` (one direction). -/
def SongCollection.addConnection (st : SongCollection) (fromId toId : String) : SongCollection :=
  { st with
      connections :=
        setA st.connections fromId (setAdd ((lookupA st.connections fromId).getD []) toId) }

/-- One step of the `forEach` in `updateConnectionsForSong`: the accumulator
carries the local `newConnections` set and the service state mutated by
`addConnection`. -/
def connStep (newSongId : String) (newSong : Song)
    (acc : List String × SongCollection) (existingSong : Song) :
    List String × SongCollection :=
  if existingSong.id = newSongId then acc
  else if areCompatible newSong.genres existingSong.genres then
    (setAdd acc.1 existingSong.id, acc.2.addConnection existingSong.id newSongId)
  else acc

/-- Private `SongCollection.updateConnectionsForSong`. -/
def SongCollection.updateConnectionsForSong (st : SongCollection) (newSongId : String) :
    SongCollection :=
  match st.getSong newSongId with
  | none => st
  | some newSong =>
    let result := st.allSongs.foldl (connStep newSongId newSong) ([], st)
    if 0 < result.1.length then
      { result.2 with connections := setA result.2.connections newSongId result.1 }
    else result.2

/-- `SongCollection.addSong` (the boolean result is paired with the state
after the call). -/
def SongCollection.addSong (st : SongCollection) (song : Song) : Bool × SongCollection :=
  if (st.getSong song.id).isSome then (false, st)
  else
    let st1 : SongCollection := { st with songs := st.songs ++ [song] }
    (true, st1.updateConnectionsForSong song.id)

/-- Private `SongCollection.removeAllConnectionsForSong`: delete the song's
own entry, then delete the id from every remaining set. -/
def SongCollection.removeAllConnectionsForSong (st : SongCollection) (songId : String) :
    SongCollection :=
  { st with
      connections :=
        (delA st.connections songId).map fun p => (p.1, p.2.erase songId) }

/-- `SongCollection.removeSong`. -/
def SongCollection.removeSong (st : SongCollection) (songId : String) :
    Bool × SongCollection :=
  if (st.getSong songId).isSome then
    let st1 : SongCollection := { st with songs := removeSongEntry st.songs songId }
    (true, st1.removeAllConnectionsForSong songId)
  else (false, st)

/-- `SongCollection.clearAll`. -/
def SongCollection.clearAll (_ : SongCollection) : SongCollection :=
  { songs := [], connections := [] }

/-- `SongCollection.exportGraphNodes`. -/
def SongCollection.exportGraphNodes (st : SongCollection) : List GraphNode :=
  st.allSongs.map fun song =>
    { id := song.id, song := song, x := 0, y := 0,
      connections := (lookupA st.connections song.id).getD [] }

/-- The public mutations of the collection. -/
inductive Op where
  | add (song : Song)
  | remove (songId : String)
  | clear
deriving DecidableEq, Repr

/-- Apply one mutation. -/
def SongCollection.applyOp (st : SongCollection) : Op → SongCollection
  | .add song => (st.addSong song).2
  | .remove songId => (st.removeSong songId).2
  | .clear => st.clearAll

/-- The freshly constructed service: both signals empty. -/
def SongCollection.empty : SongCollection :=
  { songs := [], connections := [] }

/-- State reached from the fresh service by a sequence of mutations. -/
def runOps (ops : List Op) : SongCollection :=
  ops.foldl SongCollection.applyOp .empty

def songIds (st : SongCollection) : List String :=
  st.songs.map Song.id

def songA : Song := { id := "a", title := "A", artist := "Art", genres := ["rock"] }
def songB : Song := { id := "b", title := "B", artist := "Brt", genres := ["indie rock"] }
def songC : Song := { id := "c", title := "C", artist := "Crt", genres := ["jazz"] }


/-! ## Layout engine (`GraphLayout` in `graph-layout.ts`)

`buildGraph` plus `forceAtlas2.assign` only ever produce one raw coordinate
pair per node id (and may throw), so the pair of them is abstracted as an
`Except Unit (String → ℚ × ℚ)` argument; `Except.error ()` is a thrown
simulation exception.  `Math.random()` is a draw sequence `rand : Nat → ℚ`
consumed two draws per node, in node order. -/

/-- `layoutSettings.iterations`. -/
def layoutIterations : Nat := 500

/-- The `padding` constant of `extractPositions` and
`fallbackRandomLayout`. -/
def canvasPadding : ℚ := 50

/-- `Math.min` fold over a list (the `Infinity` seed of the source means the
fold effectively starts at the first element; only non-empty lists are ever
inspected by the claims). -/
def listMin : List ℚ → ℚ
  | [] => 0
  | x :: xs => xs.foldl min x

/-- `Math.max` fold over a list, as `listMin`. -/
def listMax : List ℚ → ℚ
  | [] => 0
  | x :: xs => xs.foldl max x

/-- `GraphLayout.extractPositions`: normalize each raw coordinate by the
observed bounding box (a degenerate range counts as 1, the `|| 1` of the
source) and scale into the padded canvas. -/
def extractPositions (raw : String → ℚ × ℚ) (nodes : List GraphNode)
    (width height : ℚ) : List GraphNode :=
  let xsRaw := nodes.map fun n => (raw n.id).1
  let ysRaw := nodes.map fun n => (raw n.id).2
  let minX := listMin xsRaw
  let maxX := listMax xsRaw
  let minY := listMin ysRaw
  let maxY := listMax ysRaw
  let rangeX := if maxX - minX = 0 then 1 else maxX - minX
  let rangeY := if maxY - minY = 0 then 1 else maxY - minY
  let usableWidth := width - 2 * canvasPadding
  let usableHeight := height - 2 * canvasPadding
  nodes.map fun node =>
    { node with
        x := canvasPadding + ((raw node.id).1 - minX) / rangeX * usableWidth,
        y := canvasPadding + ((raw node.id).2 - minY) / rangeY * usableHeight }

/-- `GraphLayout.fallbackRandomLayout`: an independent draw pair per node,
scaled into the padded canvas. -/
def fallbackRandomLayout (rand : Nat → ℚ) (nodes : List GraphNode)
    (width height : ℚ) : List GraphNode :=
  nodes.enum.map fun p =>
    { p.2 with
        x := canvasPadding + rand (2 * p.1) * (width - 2 * canvasPadding),
        y := canvasPadding + rand (2 * p.1 + 1) * (height - 2 * canvasPadding) }

/-- `GraphLayout.calculatePositions`: empty guard, then the whole
`try`/`catch` — a throwing simulation is caught and replaced by the random
fallback. -/
def calculatePositions (runSim : Except Unit (String → ℚ × ℚ)) (rand : Nat → ℚ)
    (nodes : List GraphNode) (canvasWidth canvasHeight : ℚ) : List GraphNode :=
  if nodes.length = 0 then []
  else
    match runSim with
    | .ok raw => extractPositions raw nodes canvasWidth canvasHeight
    | .error _ => fallbackRandomLayout rand nodes canvasWidth canvasHeight

/-- `Math.ceil(layoutSettings.iterations / steps)` for a positive integral
`steps`. -/
def iterationsPerStep (steps : Nat) : Nat :=
  (layoutIterations + steps - 1) / steps

/-- Outcome of `calculateAnimated`: the list of `onStep` invocations (each
tagged with the cumulative number of simulation iterations it reflects) and
whether an exception escaped the engine. -/
structure AnimResult where
  calls : List (Nat × List GraphNode)
  escaped : Bool
deriving DecidableEq, Repr

/-- The recursive `animate` callback of `calculateAnimated`.  `k` is
`currentStep`; `fuel` counts the remaining `requestAnimationFrame`
re-entries, i.e. `steps - currentStep - 1` — the source re-schedules while
`currentStep < steps` and always runs the first frame.  `chunkSim k` is the
`forceAtlas2.assign` chunk of frame `k`; since no frame is wrapped in
`try`/`catch`, an error ends the run with `escaped := true`. -/
def animateSteps (chunkSim : Nat → Except Unit (String → ℚ × ℚ))
    (nodes : List GraphNode) (width height : ℚ) (ips : Nat) :
    Nat → Nat → AnimResult
  | k, fuel =>
    match chunkSim k with
    | .error _ => { calls := [], escaped := true }
    | .ok raw =>
      let entry := ((k + 1) * ips, extractPositions raw nodes width height)
      match fuel with
      | 0 => { calls := [entry], escaped := false }
      | fuel' + 1 =>
        let rest := animateSteps chunkSim nodes width height ips (k + 1) fuel'
        { calls := entry :: rest.calls, escaped := rest.escaped }

/-- `GraphLayout.calculateAnimated` (empty guard, then the frame loop). -/
def calculateAnimated (chunkSim : Nat → Except Unit (String → ℚ × ℚ))
    (nodes : List GraphNode) (canvasWidth canvasHeight : ℚ) (steps : Nat) :
    AnimResult :=
  if nodes.length = 0 then { calls := [], escaped := false }
  else animateSteps chunkSim nodes canvasWidth canvasHeight
    (iterationsPerStep steps) 0 (steps - 1)

/-- `GraphLayout.updateWithNewNodes`: combine the node lists and rerun the
simulation with the quick settings; there is no `try`/`catch`, so a
simulation failure propagates to the caller. -/
def updateWithNewNodes (runSim : Except Unit (String → ℚ × ℚ))
    (existingNodes newNodes : List GraphNode) (canvasWidth canvasHeight : ℚ) :
    Except Unit (List GraphNode) :=
  let allNodes := existingNodes ++ newNodes
  match runSim with
  | .error e => .error e
  | .ok raw => .ok (extractPositions raw allNodes canvasWidth canvasHeight)

def nodeA : GraphNode := { id := "a", song := songA, x := 0, y := 0 }
def nodeB : GraphNode := { id := "b", song := songB, x := 0, y := 0, connections := ["a"] }


/-- `x` is the id of a song already in the collection whose genres are
compatible with `song`'s (the ids collected by `updateConnectionsForSong`
when `song` is inserted fresh). -/
def CompatWith (st : SongCollection) (song : Song) (x : String) : Prop :=
  ∃ s ∈ st.songs, s.id = x ∧ s.id ≠ song.id ∧ areCompatible song.genres s.genres = true

/-- Structural invariant maintained by every mutation: duplicate-free song
ids, well-formed connection map (duplicate-free keys and sets), connection
endpoints always in the collection, and symmetry. -/
structure SCInv (st : SongCollection) : Prop where
  songsNodup : (songIds st).Nodup
  keysNodup : (st.connections.map Prod.fst).Nodup
  valsNodup : ∀ p ∈ st.connections, p.2.Nodup
  connDom : ∀ a b, ConnMem st a b → a ∈ songIds st ∧ b ∈ songIds st
  connSymm : ∀ a b, ConnMem st a b ↔ ConnMem st b a

/-! ## Association-map lemmas -/

section AssocMapLemmas

variable {α : Type}

theorem lookupA_setA_self (m : List (String × α)) (k : String) (v : α) :
    lookupA (setA m k v) k = some v := by
  induction m with
  | nil => simp [setA, lookupA]
  | cons p m ih =>
    by_cases h : p.1 = k
    · simp [setA, h, lookupA]
    · simp [setA, h, lookupA, ih]

theorem lookupA_setA_ne (m : List (String × α)) (k a : String) (v : α) (h : a ≠ k) :
    lookupA (setA m k v) a = lookupA m a := by
  have hka : ¬ k = a := fun hk => h hk.symm
  induction m with
  | nil => simp [setA, lookupA, hka]
  | cons p m ih =>
    by_cases hp : p.1 = k
    · have hpa : ¬ p.1 = a := by rw [hp]; exact hka
      simp [setA, hp, lookupA, hka, hpa]
    · by_cases ha : p.1 = a <;> simp [setA, hp, lookupA, ha, ih, h]

theorem lookupA_delA_ne (m : List (String × α)) (k a : String) (h : a ≠ k) :
    lookupA (delA m k) a = lookupA m a := by
  have hka : ¬ k = a := fun hk => h hk.symm
  induction m with
  | nil => simp [delA]
  | cons p m ih =>
    by_cases hp : p.1 = k
    · have hpa : ¬ p.1 = a := fun ha => h (ha ▸ hp)
      simp [delA, hp, lookupA, hpa, hka]
    · by_cases ha : p.1 = a <;> simp [delA, hp, lookupA, ha, ih, h]

theorem lookupA_eq_none_iff (m : List (String × α)) (k : String) :
    lookupA m k = none ↔ ∀ p ∈ m, p.1 ≠ k := by
  induction m with
  | nil => simp [lookupA]
  | cons p m ih =>
    by_cases hp : p.1 = k <;> simp [lookupA, hp, ih]

theorem lookupA_delA_self (m : List (String × α)) (k : String)
    (hnd : (m.map Prod.fst).Nodup) : lookupA (delA m k) k = none := by
  induction m with
  | nil => simp [delA, lookupA]
  | cons p m ih =>
    simp only [List.map_cons, List.nodup_cons] at hnd
    by_cases hp : p.1 = k
    · simp only [delA, hp, if_true]
      rw [lookupA_eq_none_iff]
      intro q hq hqk
      exact hnd.1 (hp ▸ hqk ▸ List.mem_map_of_mem Prod.fst hq)
    · simp [delA, hp, lookupA, ih hnd.2]

theorem delA_sublist (m : List (String × α)) (k : String) : (delA m k).Sublist m := by
  induction m with
  | nil => simp [delA]
  | cons p m ih =>
    by_cases hp : p.1 = k
    · simp only [delA, hp, if_true]
      exact List.sublist_cons_self p m
    · simpa [delA, hp] using ih.cons₂ p

theorem setA_keys_of_found (m : List (String × α)) (k : String) (v : α)
    (h : (lookupA m k).isSome) :
    (setA m k v).map Prod.fst = m.map Prod.fst := by
  induction m with
  | nil => simp [lookupA] at h
  | cons p m ih =>
    by_cases hp : p.1 = k
    · simp [setA, hp]
    · simp only [lookupA, hp, if_false] at h
      simp [setA, hp, ih h]

theorem setA_keys_of_missing (m : List (String × α)) (k : String) (v : α)
    (h : lookupA m k = none) :
    (setA m k v).map Prod.fst = m.map Prod.fst ++ [k] := by
  induction m with
  | nil => simp [setA]
  | cons p m ih =>
    by_cases hp : p.1 = k
    · simp [lookupA, hp] at h
    · simp only [lookupA, hp, if_false] at h
      simp [setA, hp, ih h]

theorem setA_keys_nodup (m : List (String × α)) (k : String) (v : α)
    (hnd : (m.map Prod.fst).Nodup) : ((setA m k v).map Prod.fst).Nodup := by
  rcases h : lookupA m k with _ | w
  · rw [setA_keys_of_missing m k v h]
    have hk : k ∉ m.map Prod.fst := by
      rw [lookupA_eq_none_iff] at h
      intro hmem
      rcases List.mem_map.1 hmem with ⟨p, hp, hpk⟩
      exact h p hp hpk
    simp [List.nodup_append, hnd, hk, List.disjoint_singleton]
  · rw [setA_keys_of_found m k v (by simp [h])]
    exact hnd

theorem setA_mem_vals (m : List (String × α)) (k : String) (v : α) (q : String × α)
    (hq : q ∈ setA m k v) : q = (k, v) ∨ q ∈ m := by
  induction m with
  | nil => simpa [setA] using hq
  | cons p m ih =>
    by_cases hp : p.1 = k
    · rcases (by simpa [setA, hp] using hq : q = (k, v) ∨ q ∈ m) with h | h
      · exact .inl h
      · exact .inr (by simp [h])
    · rcases (by simpa [setA, hp] using hq : q = p ∨ q ∈ setA m k v) with h | h
      · exact .inr (by simp [h])
      · rcases ih h with h2 | h2
        · exact .inl h2
        · exact .inr (by simp [h2])

theorem lookupA_mem (m : List (String × α)) (k : String) (v : α)
    (h : lookupA m k = some v) : (k, v) ∈ m := by
  induction m with
  | nil => simp [lookupA] at h
  | cons p m ih =>
    by_cases hp : p.1 = k
    · simp only [lookupA, hp, if_true, Option.some.injEq] at h
      have hpv : p = (k, v) := by cases p; simp_all
      rw [← hpv]
      exact List.mem_cons_self p m
    · simp only [lookupA, hp, if_false] at h
      exact List.mem_cons_of_mem p (ih h)

theorem lookupA_map_val {β : Type} (m : List (String × α)) (k : String)
    (f : α → β) :
    lookupA (m.map fun p => (p.1, f p.2)) k = (lookupA m k).map f := by
  induction m with
  | nil => simp [lookupA]
  | cons p m ih =>
    by_cases hp : p.1 = k <;> simp [lookupA, hp, ih]

end AssocMapLemmas

theorem setAdd_mem (l : List String) (x y : String) :
    y ∈ setAdd l x ↔ y ∈ l ∨ y = x := by
  by_cases h : x ∈ l
  · simp only [setAdd, h, if_true]
    constructor
    · exact .inl
    · rintro (hy | rfl) <;> assumption
  · simp [setAdd, h]

theorem setAdd_nodup (l : List String) (x : String) (h : l.Nodup) :
    (setAdd l x).Nodup := by
  by_cases hx : x ∈ l
  · simpa [setAdd, hx] using h
  · simp [setAdd, hx, List.nodup_append, h, List.disjoint_singleton]

/-! ## Song-list lemmas -/

theorem findSong_eq_none_iff (l : List Song) (i : String) :
    findSong l i = none ↔ ∀ s ∈ l, s.id ≠ i := by
  induction l with
  | nil => simp [findSong]
  | cons s l ih =>
    by_cases hs : s.id = i <;> simp [findSong, hs, ih]

theorem findSong_isSome_iff (l : List Song) (i : String) :
    (findSong l i).isSome = true ↔ i ∈ l.map Song.id := by
  induction l with
  | nil => simp [findSong]
  | cons s l ih =>
    by_cases hs : s.id = i
    · simp [findSong, hs]
    · have his : ¬ i = s.id := fun hh => hs hh.symm
      simp [findSong, hs, ih, his]

theorem findSong_append_none (l1 l2 : List Song) (i : String)
    (h : findSong l1 i = none) : findSong (l1 ++ l2) i = findSong l2 i := by
  induction l1 with
  | nil => simp
  | cons s l1 ih =>
    by_cases hs : s.id = i
    · simp [findSong, hs] at h
    · simp only [findSong, hs, if_false] at h
      simp [findSong, hs, ih h]

theorem removeSongEntry_sublist (l : List Song) (i : String) :
    (removeSongEntry l i).Sublist l := by
  induction l with
  | nil => simp [removeSongEntry]
  | cons s l ih =>
    by_cases hs : s.id = i
    · simp only [removeSongEntry, hs, if_true]
      exact List.sublist_cons_self s l
    · simpa [removeSongEntry, hs] using ih.cons₂ s

theorem findSong_removeSongEntry_self (l : List Song) (i : String)
    (hnd : (l.map Song.id).Nodup) : findSong (removeSongEntry l i) i = none := by
  induction l with
  | nil => simp [removeSongEntry, findSong]
  | cons s l ih =>
    simp only [List.map_cons, List.nodup_cons] at hnd
    by_cases hs : s.id = i
    · simp only [removeSongEntry, hs, if_true]
      rw [findSong_eq_none_iff]
      intro q hq hqi
      exact hnd.1 (hs ▸ hqi ▸ List.mem_map_of_mem Song.id hq)
    · simp [removeSongEntry, hs, findSong, ih hnd.2]

theorem mem_ids_removeSongEntry_of_ne (l : List Song) (i x : String) (h : x ≠ i) :
    x ∈ (removeSongEntry l i).map Song.id ↔ x ∈ l.map Song.id := by
  induction l with
  | nil => simp [removeSongEntry]
  | cons s l ih =>
    by_cases hs : s.id = i
    · have hxs : ¬ x = s.id := fun hx => h (hx.trans hs)
      simp [removeSongEntry, hs, hxs, h]
    · simp only [removeSongEntry, hs, if_false, List.map_cons, List.mem_cons]
      rw [ih]

/-! ## Connection-map characterizations -/

theorem connList_nodup (st : SongCollection)
    (h : ∀ p ∈ st.connections, p.2.Nodup) (a : String) : (connList st a).Nodup := by
  unfold connList
  rcases hl : lookupA st.connections a with _ | v
  · simp
  · exact h (a, v) (lookupA_mem _ _ _ hl)

theorem areConnected_eq_decide (st : SongCollection) (a b : String) :
    st.areConnected a b = decide (ConnMem st a b) := by
  rcases hl : lookupA st.connections a with _ | l <;>
    simp [SongCollection.areConnected, ConnMem, connList, hl]

theorem connList_addConnection (st : SongCollection) (f t a : String) :
    connList (st.addConnection f t) a =
      if a = f then setAdd (connList st f) t else connList st a := by
  unfold SongCollection.addConnection connList
  by_cases h : a = f
  · subst h
    simp [lookupA_setA_self]
  · simp [lookupA_setA_ne _ _ _ _ h, h]

theorem ConnMem_addConnection (st : SongCollection) (f t a b : String) :
    ConnMem (st.addConnection f t) a b ↔ ConnMem st a b ∨ (a = f ∧ b = t) := by
  unfold ConnMem
  rw [connList_addConnection]
  by_cases h : a = f
  · subst h
    rw [if_pos rfl, setAdd_mem]
    tauto
  · simp [h]

theorem addConnection_songs (st : SongCollection) (f t : String) :
    (st.addConnection f t).songs = st.songs := rfl

theorem addConnection_keys_nodup (st : SongCollection) (f t : String)
    (h : (st.connections.map Prod.fst).Nodup) :
    ((st.addConnection f t).connections.map Prod.fst).Nodup :=
  setA_keys_nodup _ _ _ h

theorem addConnection_vals_nodup (st : SongCollection) (f t : String)
    (h : ∀ p ∈ st.connections, p.2.Nodup) :
    ∀ p ∈ (st.addConnection f t).connections, p.2.Nodup := by
  intro p hp
  rcases setA_mem_vals _ _ _ _ hp with rfl | hm
  · exact setAdd_nodup _ _ (connList_nodup st h f)
  · exact h p hm

/-! ## The `updateConnectionsForSong` fold -/

section ConnFold

variable (nid : String) (ns : Song)

theorem foldl_connStep_songs (L : List Song) (acc : List String × SongCollection) :
    (L.foldl (connStep nid ns) acc).2.songs = acc.2.songs := by
  induction L generalizing acc with
  | nil => rfl
  | cons s L ih =>
    rw [List.foldl_cons, ih]
    unfold connStep
    by_cases h1 : s.id = nid
    · simp [h1]
    · by_cases h2 : areCompatible ns.genres s.genres = true <;>
        simp [h1, h2, addConnection_songs]

theorem foldl_connStep_fst_mem (L : List Song) (acc : List String × SongCollection)
    (x : String) :
    x ∈ (L.foldl (connStep nid ns) acc).1 ↔
      x ∈ acc.1 ∨ ∃ s ∈ L, s.id = x ∧ s.id ≠ nid ∧ areCompatible ns.genres s.genres = true := by
  induction L generalizing acc with
  | nil => simp
  | cons s L ih =>
    rw [List.foldl_cons, ih]
    unfold connStep
    by_cases h1 : s.id = nid
    · simp [h1]
    · by_cases h2 : areCompatible ns.genres s.genres = true
      · simp only [h1, if_false, h2, if_true]
        rw [setAdd_mem]
        constructor
        · rintro ((hx | rfl) | ⟨s2, hs2, rfl, hne, hcomp⟩)
          · exact .inl hx
          · exact .inr ⟨s, by simp, rfl, h1, h2⟩
          · exact .inr ⟨s2, by simp [hs2], rfl, hne, hcomp⟩
        · rintro (hx | ⟨s2, hs2, rfl, hne, hcomp⟩)
          · exact .inl (.inl hx)
          · rcases List.mem_cons.1 hs2 with rfl | hs2
            · exact .inl (.inr rfl)
            · exact .inr ⟨s2, hs2, rfl, hne, hcomp⟩
      · simp only [h1, if_false, h2, if_false]
        constructor
        · rintro (hx | ⟨s2, hs2, rfl, hne, hcomp⟩)
          · exact .inl hx
          · exact .inr ⟨s2, by simp [hs2], rfl, hne, hcomp⟩
        · rintro (hx | ⟨s2, hs2, rfl, hne, hcomp⟩)
          · exact .inl hx
          · rcases List.mem_cons.1 hs2 with rfl | hs2
            · exact absurd hcomp h2
            · exact .inr ⟨s2, hs2, rfl, hne, hcomp⟩

theorem foldl_connStep_ConnMem (L : List Song) (acc : List String × SongCollection)
    (a b : String) :
    ConnMem (L.foldl (connStep nid ns) acc).2 a b ↔
      ConnMem acc.2 a b ∨
        (b = nid ∧ ∃ s ∈ L, s.id = a ∧ s.id ≠ nid ∧
          areCompatible ns.genres s.genres = true) := by
  induction L generalizing acc with
  | nil => simp
  | cons s L ih =>
    rw [List.foldl_cons, ih]
    unfold connStep
    by_cases h1 : s.id = nid
    · simp [h1]
    · by_cases h2 : areCompatible ns.genres s.genres = true
      · simp only [h1, if_false, h2, if_true]
        rw [ConnMem_addConnection]
        constructor
        · rintro ((hm | ⟨rfl, rfl⟩) | ⟨rfl, s2, hs2, rfl, hne, hcomp⟩)
          · exact .inl hm
          · exact .inr ⟨rfl, s, by simp, rfl, h1, h2⟩
          · exact .inr ⟨rfl, s2, by simp [hs2], rfl, hne, hcomp⟩
        · rintro (hm | ⟨rfl, s2, hs2, rfl, hne, hcomp⟩)
          · exact .inl (.inl hm)
          · rcases List.mem_cons.1 hs2 with rfl | hs2
            · exact .inl (.inr ⟨rfl, rfl⟩)
            · exact .inr ⟨rfl, s2, hs2, rfl, hne, hcomp⟩
      · simp only [h1, if_false, h2, if_false]
        constructor
        · rintro (hm | ⟨rfl, s2, hs2, rfl, hne, hcomp⟩)
          · exact .inl hm
          · exact .inr ⟨rfl, s2, by simp [hs2], rfl, hne, hcomp⟩
        · rintro (hm | ⟨rfl, s2, hs2, rfl, hne, hcomp⟩)
          · exact .inl hm
          · rcases List.mem_cons.1 hs2 with rfl | hs2
            · exact absurd hcomp h2
            · exact .inr ⟨rfl, s2, hs2, rfl, hne, hcomp⟩

theorem foldl_connStep_fst_nodup (L : List Song) (acc : List String × SongCollection)
    (h : acc.1.Nodup) : (L.foldl (connStep nid ns) acc).1.Nodup := by
  induction L generalizing acc with
  | nil => exact h
  | cons s L ih =>
    rw [List.foldl_cons]
    apply ih
    unfold connStep
    by_cases h1 : s.id = nid
    · simpa [h1] using h
    · by_cases h2 : areCompatible ns.genres s.genres = true
      · simpa [h1, h2] using setAdd_nodup _ _ h
      · simpa [h1, h2] using h

theorem foldl_connStep_keys_nodup (L : List Song) (acc : List String × SongCollection)
    (h : (acc.2.connections.map Prod.fst).Nodup) :
    ((L.foldl (connStep nid ns) acc).2.connections.map Prod.fst).Nodup := by
  induction L generalizing acc with
  | nil => exact h
  | cons s L ih =>
    rw [List.foldl_cons]
    apply ih
    unfold connStep
    by_cases h1 : s.id = nid
    · simpa [h1] using h
    · by_cases h2 : areCompatible ns.genres s.genres = true
      · simpa [h1, h2] using addConnection_keys_nodup acc.2 s.id nid h
      · simpa [h1, h2] using h

theorem foldl_connStep_vals_nodup (L : List Song) (acc : List String × SongCollection)
    (h : ∀ p ∈ acc.2.connections, p.2.Nodup) :
    ∀ p ∈ (L.foldl (connStep nid ns) acc).2.connections, p.2.Nodup := by
  induction L generalizing acc with
  | nil => exact h
  | cons s L ih =>
    rw [List.foldl_cons]
    apply ih
    unfold connStep
    by_cases h1 : s.id = nid
    · simpa [h1] using h
    · by_cases h2 : areCompatible ns.genres s.genres = true
      · simpa [h1, h2] using addConnection_vals_nodup acc.2 s.id nid h
      · simpa [h1, h2] using h

end ConnFold

/-! ## `addSong` characterization -/

theorem getSong_eq_none_iff (st : SongCollection) (i : String) :
    st.getSong i = none ↔ i ∉ songIds st := by
  unfold SongCollection.getSong songIds
  rw [findSong_eq_none_iff]
  simp [List.mem_map]

theorem addSong_songs_of_fresh (st : SongCollection) (song : Song)
    (h : st.getSong song.id = none) :
    (st.addSong song).2.songs = st.songs ++ [song] := by
  unfold SongCollection.addSong
  rw [h]
  simp only [Option.isSome_none, Bool.false_eq_true, if_false]
  unfold SongCollection.updateConnectionsForSong
  rcases hg : SongCollection.getSong { st with songs := st.songs ++ [song] } song.id with _ | ns
  · rfl
  · simp only []
    by_cases hr : 0 < (SongCollection.allSongs { st with songs := st.songs ++ [song] }
        |>.foldl (connStep song.id ns) ([], { st with songs := st.songs ++ [song] })).1.length
    · simp only [hr, if_true]
      exact foldl_connStep_songs _ _ _ _
    · simp only [hr, if_false]
      exact foldl_connStep_songs _ _ _ _

theorem addSong_fst_of_fresh (st : SongCollection) (song : Song)
    (h : st.getSong song.id = none) : (st.addSong song).1 = true := by
  unfold SongCollection.addSong
  rw [h]
  rfl

theorem getSong_append_self (st : SongCollection) (song : Song)
    (h : st.getSong song.id = none) :
    SongCollection.getSong { st with songs := st.songs ++ [song] } song.id = some song := by
  show findSong (st.songs ++ [song]) song.id = some song
  rw [findSong_append_none _ _ _ h]
  simp [findSong]

theorem updateConnections_eq_of_some (st : SongCollection) (nid : String) (ns : Song)
    (h : st.getSong nid = some ns) :
    st.updateConnectionsForSong nid =
      (if 0 < (st.allSongs.foldl (connStep nid ns) ([], st)).1.length then
        { (st.allSongs.foldl (connStep nid ns) ([], st)).2 with
            connections :=
              setA (st.allSongs.foldl (connStep nid ns) ([], st)).2.connections nid
                (st.allSongs.foldl (connStep nid ns) ([], st)).1 }
      else (st.allSongs.foldl (connStep nid ns) ([], st)).2) := by
  unfold SongCollection.updateConnectionsForSong
  rw [h]

theorem CompatWith_not_self (st : SongCollection) (song : Song) :
    ¬ CompatWith st song song.id := by
  rintro ⟨s, _, h1, h2, _⟩
  exact h2 h1

theorem addSong_ConnMem_of_fresh (st : SongCollection) (song : Song)
    (hfresh : st.getSong song.id = none)
    (hdom : ∀ a b, ConnMem st a b → a ∈ songIds st ∧ b ∈ songIds st)
    (a b : String) :
    ConnMem (st.addSong song).2 a b ↔
      ConnMem st a b ∨ (a = song.id ∧ CompatWith st song b) ∨
        (b = song.id ∧ CompatWith st song a) := by
  have hnid : song.id ∉ songIds st := (getSong_eq_none_iff st song.id).1 hfresh
  have hnoconn : ∀ c, ¬ ConnMem st song.id c := fun c hc => hnid (hdom _ _ hc).1
  simp only [SongCollection.addSong, hfresh, Option.isSome_none, Bool.false_eq_true,
    if_false]
  rw [updateConnections_eq_of_some _ _ _ (getSong_append_self st song hfresh)]
  set st1 : SongCollection := { st with songs := st.songs ++ [song] } with hst1
  have hallsongs : st1.allSongs = st.songs ++ [song] := rfl
  set r := (st1.allSongs.foldl (connStep song.id song) ([], st1)) with hr
  have hconn1 : ∀ a b, ConnMem st1 a b ↔ ConnMem st a b := fun _ _ => Iff.rfl
  have hfst : ∀ x, x ∈ r.1 ↔ CompatWith st song x := by
    intro x
    rw [hr, foldl_connStep_fst_mem, hallsongs]
    unfold CompatWith
    simp only [List.mem_nil_iff, false_or, List.mem_append, List.mem_singleton]
    constructor
    · rintro ⟨s, hs | rfl, hid, hne, hcomp⟩
      · exact ⟨s, hs, hid, hne, hcomp⟩
      · exact absurd rfl hne
    · rintro ⟨s, hs, hid, hne, hcomp⟩
      exact ⟨s, .inl hs, hid, hne, hcomp⟩
  have hmem : ∀ a b, ConnMem r.2 a b ↔
      ConnMem st a b ∨ (b = song.id ∧ CompatWith st song a) := by
    intro a b
    rw [hr, foldl_connStep_ConnMem, hallsongs]
    unfold CompatWith
    simp only [List.mem_append, List.mem_singleton]
    constructor
    · rintro (hm | ⟨rfl, s, hs | rfl, hid, hne, hcomp⟩)
      · exact .inl hm
      · exact .inr ⟨rfl, s, hs, hid, hne, hcomp⟩
      · exact absurd rfl hne
    · rintro (hm | ⟨rfl, s, hs, hid, hne, hcomp⟩)
      · exact .inl hm
      · exact .inr ⟨rfl, s, .inl hs, hid, hne, hcomp⟩
  by_cases hlen : 0 < r.1.length
  · rw [if_pos hlen]
    by_cases ha : a = song.id
    · subst ha
      have hlhs : ConnMem
          { r.2 with connections := setA r.2.connections song.id r.1 } song.id b ↔
            b ∈ r.1 := by
        unfold ConnMem connList
        rw [lookupA_setA_self]
        simp
      rw [hlhs, hfst b]
      constructor
      · intro hc
        exact .inr (.inl ⟨rfl, hc⟩)
      · rintro (hm | ⟨_, hc⟩ | ⟨rfl, hc⟩)
        · exact absurd hm (hnoconn b)
        · exact hc
        · exact absurd hc (CompatWith_not_self st song)
    · have hlhs : ConnMem
          { r.2 with connections := setA r.2.connections song.id r.1 } a b ↔
            ConnMem r.2 a b := by
        unfold ConnMem connList
        rw [show ({ r.2 with connections := setA r.2.connections song.id r.1 } :
          SongCollection).connections = setA r.2.connections song.id r.1 from rfl,
          lookupA_setA_ne _ _ _ _ ha]
      rw [hlhs, hmem a b]
      constructor
      · rintro (hm | ⟨rfl, hc⟩)
        · exact .inl hm
        · exact .inr (.inr ⟨rfl, hc⟩)
      · rintro (hm | ⟨ha2, hc⟩ | ⟨rfl, hc⟩)
        · exact .inl hm
        · exact absurd ha2 ha
        · exact .inr ⟨rfl, hc⟩
  · rw [if_neg hlen]
    have hempty : r.1 = [] :=
      List.length_eq_zero.1 (Nat.eq_zero_of_not_pos hlen)
    have hnocompat : ∀ x, ¬ CompatWith st song x := by
      intro x hc
      have := (hfst x).2 hc
      rw [hempty] at this
      exact absurd this (List.not_mem_nil x)
    rw [hmem a b]
    constructor
    · rintro (hm | ⟨rfl, hc⟩)
      · exact .inl hm
      · exact absurd hc (hnocompat a)
    · rintro (hm | ⟨_, hc⟩ | ⟨_, hc⟩)
      · exact .inl hm
      · exact absurd hc (hnocompat b)
      · exact absurd hc (hnocompat a)

/-! ## `removeSong` characterization -/

theorem removeSong_of_absent (st : SongCollection) (i : String)
    (h : st.getSong i = none) : st.removeSong i = (false, st) := by
  unfold SongCollection.removeSong
  rw [h]
  rfl

theorem removeSong_of_present (st : SongCollection) (i : String)
    (h : (st.getSong i).isSome = true) :
    st.removeSong i =
      (true, SongCollection.removeAllConnectionsForSong
        { st with songs := removeSongEntry st.songs i } i) := by
  unfold SongCollection.removeSong
  rw [h]
  rfl

theorem removeAll_connList (st : SongCollection) (i : String)
    (hkeys : (st.connections.map Prod.fst).Nodup) (a : String) :
    connList (st.removeAllConnectionsForSong i) a =
      if a = i then [] else (connList st a).erase i := by
  unfold SongCollection.removeAllConnectionsForSong connList
  show (lookupA ((delA st.connections i).map fun p => (p.1, p.2.erase i)) a).getD [] = _
  rw [show lookupA ((delA st.connections i).map fun p => (p.1, p.2.erase i)) a =
        (lookupA (delA st.connections i) a).map (fun l => l.erase i) from
      lookupA_map_val (delA st.connections i) a (fun l => l.erase i)]
  by_cases ha : a = i
  · subst ha
    rw [lookupA_delA_self _ _ hkeys]
    simp
  · rw [lookupA_delA_ne _ _ _ ha]
    rcases lookupA st.connections a with _ | l <;> simp [ha]

theorem removeAll_songs (st : SongCollection) (i : String) :
    (st.removeAllConnectionsForSong i).songs = st.songs := rfl

theorem removeAll_ConnMem (st : SongCollection) (i : String)
    (hkeys : (st.connections.map Prod.fst).Nodup)
    (hvals : ∀ p ∈ st.connections, p.2.Nodup) (a b : String) :
    ConnMem (st.removeAllConnectionsForSong i) a b ↔
      a ≠ i ∧ b ≠ i ∧ ConnMem st a b := by
  unfold ConnMem
  rw [removeAll_connList st i hkeys]
  by_cases ha : a = i
  · simp [ha]
  · rw [if_neg ha, (connList_nodup st hvals a).mem_erase_iff]
    tauto

/-! ## The reachable-state invariant -/

theorem addSong_of_dup (st : SongCollection) (song : Song)
    (h : (st.getSong song.id).isSome = true) : st.addSong song = (false, st) := by
  unfold SongCollection.addSong
  rw [h]
  rfl

theorem addSong_keys_nodup_of_fresh (st : SongCollection) (song : Song)
    (hfresh : st.getSong song.id = none)
    (hkeys : (st.connections.map Prod.fst).Nodup) :
    ((st.addSong song).2.connections.map Prod.fst).Nodup := by
  simp only [SongCollection.addSong, hfresh, Option.isSome_none, Bool.false_eq_true,
    if_false]
  rw [updateConnections_eq_of_some _ _ _ (getSong_append_self st song hfresh)]
  set st1 : SongCollection := { st with songs := st.songs ++ [song] } with hst1
  have hbase : ((List.foldl (connStep song.id song) ([], st1)
      st1.allSongs).2.connections.map Prod.fst).Nodup :=
    foldl_connStep_keys_nodup _ _ _ _ hkeys
  by_cases hlen : 0 < (List.foldl (connStep song.id song) ([], st1) st1.allSongs).1.length
  · rw [if_pos hlen]
    exact setA_keys_nodup _ _ _ hbase
  · rw [if_neg hlen]
    exact hbase

theorem addSong_vals_nodup_of_fresh (st : SongCollection) (song : Song)
    (hfresh : st.getSong song.id = none)
    (hvals : ∀ p ∈ st.connections, p.2.Nodup) :
    ∀ p ∈ (st.addSong song).2.connections, p.2.Nodup := by
  simp only [SongCollection.addSong, hfresh, Option.isSome_none, Bool.false_eq_true,
    if_false]
  rw [updateConnections_eq_of_some _ _ _ (getSong_append_self st song hfresh)]
  set st1 : SongCollection := { st with songs := st.songs ++ [song] } with hst1
  have hbase : ∀ p ∈ (List.foldl (connStep song.id song) ([], st1)
      st1.allSongs).2.connections, p.2.Nodup :=
    foldl_connStep_vals_nodup _ _ _ _ hvals
  by_cases hlen : 0 < (List.foldl (connStep song.id song) ([], st1) st1.allSongs).1.length
  · rw [if_pos hlen]
    intro p hp
    rcases setA_mem_vals _ _ _ _ hp with rfl | hm
    · exact foldl_connStep_fst_nodup _ _ _ _ List.nodup_nil
    · exact hbase p hm
  · rw [if_neg hlen]
    exact hbase

theorem addSong_songIds_of_fresh (st : SongCollection) (song : Song)
    (hfresh : st.getSong song.id = none) :
    songIds (st.addSong song).2 = songIds st ++ [song.id] := by
  unfold songIds
  rw [addSong_songs_of_fresh st song hfresh]
  simp

theorem SCInv_addSong (st : SongCollection) (song : Song) (h : SCInv st) :
    SCInv (st.addSong song).2 := by
  by_cases hdup : (st.getSong song.id).isSome = true
  · rw [addSong_of_dup st song hdup]
    exact h
  · have hfresh : st.getSong song.id = none := by
      rcases hg : st.getSong song.id with _ | s
      · rfl
      · exact absurd (by simp [hg]) hdup
    have hids := addSong_songIds_of_fresh st song hfresh
    have hnid : song.id ∉ songIds st := (getSong_eq_none_iff st song.id).1 hfresh
    have hchar := addSong_ConnMem_of_fresh st song hfresh h.connDom
    refine ⟨?_, ?_, ?_, ?_, ?_⟩
    · rw [hids]
      simp [List.nodup_append, h.songsNodup, hnid, List.disjoint_singleton]
    · exact addSong_keys_nodup_of_fresh st song hfresh h.keysNodup
    · exact addSong_vals_nodup_of_fresh st song hfresh h.valsNodup
    · intro a b hc
      rw [hchar a b] at hc
      rw [hids]
      rcases hc with hm | ⟨rfl, s, hs, rfl, _, _⟩ | ⟨rfl, s, hs, rfl, _, _⟩
      · rcases h.connDom a b hm with ⟨ha, hb⟩
        exact ⟨by simp [ha], by simp [hb]⟩
      · exact ⟨by simp, by simp [List.mem_map_of_mem Song.id hs, songIds]⟩
      · exact ⟨by simp [List.mem_map_of_mem Song.id hs, songIds], by simp⟩
    · intro a b
      rw [hchar a b, hchar b a, h.connSymm a b]
      tauto

theorem SCInv_removeSong (st : SongCollection) (i : String) (h : SCInv st) :
    SCInv (st.removeSong i).2 := by
  by_cases hp : (st.getSong i).isSome = true
  · rw [removeSong_of_present st i hp]
    set st1 : SongCollection := { st with songs := removeSongEntry st.songs i } with hst1
    have hconn1 : st1.connections = st.connections := rfl
    have hchar : ∀ a b, ConnMem (st1.removeAllConnectionsForSong i) a b ↔
        a ≠ i ∧ b ≠ i ∧ ConnMem st a b := by
      intro a b
      rw [removeAll_ConnMem st1 i (hconn1 ▸ h.keysNodup) (hconn1 ▸ h.valsNodup) a b]
      exact Iff.rfl
    have hsongs2 : (st1.removeAllConnectionsForSong i).songs =
        removeSongEntry st.songs i := rfl
    refine ⟨?_, ?_, ?_, ?_, ?_⟩
    · unfold songIds
      rw [hsongs2]
      exact h.songsNodup.sublist ((removeSongEntry_sublist st.songs i).map Song.id)
    · show (((delA st1.connections i).map fun p => (p.1, p.2.erase i)).map Prod.fst).Nodup
      rw [List.map_map]
      have : (Prod.fst ∘ fun p : String × List String => (p.1, p.2.erase i)) =
          Prod.fst := rfl
      rw [this, hconn1]
      exact h.keysNodup.sublist ((delA_sublist st.connections i).map Prod.fst)
    · show ∀ p ∈ (delA st1.connections i).map fun p => (p.1, p.2.erase i), p.2.Nodup
      intro p hp2
      rcases List.mem_map.1 hp2 with ⟨q, hq, rfl⟩
      have hqm : q ∈ st.connections := (delA_sublist _ _).subset (hconn1 ▸ hq)
      exact (h.valsNodup q hqm).erase i
    · intro a b hc
      rw [hchar a b] at hc
      rcases hc with ⟨ha, hb, hm⟩
      rcases h.connDom a b hm with ⟨ha2, hb2⟩
      unfold songIds
      rw [hsongs2]
      exact ⟨(mem_ids_removeSongEntry_of_ne _ _ _ ha).2 ha2,
        (mem_ids_removeSongEntry_of_ne _ _ _ hb).2 hb2⟩
    · intro a b
      rw [hchar a b, hchar b a, h.connSymm a b]
      tauto
  · have habs : st.getSong i = none := by
      rcases hg : st.getSong i with _ | s
      · rfl
      · exact absurd (by simp [hg]) hp
    rw [removeSong_of_absent st i habs]
    exact h

theorem SCInv_empty : SCInv SongCollection.empty := by
  refine ⟨by simp [songIds, SongCollection.empty], by simp [SongCollection.empty],
    by simp [SongCollection.empty], ?_, ?_⟩ <;>
    simp [ConnMem, connList, SongCollection.empty, lookupA]

theorem SCInv_clearAll (st : SongCollection) : SCInv st.clearAll := SCInv_empty

theorem SCInv_applyOp (st : SongCollection) (op : Op) (h : SCInv st) :
    SCInv (st.applyOp op) := by
  cases op with
  | add song => exact SCInv_addSong st song h
  | remove songId => exact SCInv_removeSong st songId h
  | clear => exact SCInv_clearAll st

theorem SCInv_runOps (ops : List Op) : SCInv (runOps ops) := by
  have main : ∀ (l : List Op) (st : SongCollection), SCInv st →
      SCInv (l.foldl SongCollection.applyOp st) := by
    intro l
    induction l with
    | nil => exact fun st h => h
    | cons op l ih =>
      intro st h
      exact ih _ (SCInv_applyOp st op h)
  exact main ops SongCollection.empty SCInv_empty

/-! ## Layout bounds -/

theorem foldl_min_le_init (l : List ℚ) (a : ℚ) : l.foldl min a ≤ a := by
  induction l generalizing a with
  | nil => exact le_refl a
  | cons x l ih => exact le_trans (ih (min a x)) (min_le_left a x)

theorem foldl_min_le_mem (l : List ℚ) (a v : ℚ) (h : v ∈ l) : l.foldl min a ≤ v := by
  induction l generalizing a with
  | nil => cases h
  | cons x l ih =>
    rcases List.mem_cons.1 h with rfl | h
    · exact le_trans (foldl_min_le_init l (min a v)) (min_le_right a v)
    · exact ih _ h

theorem init_le_foldl_max (l : List ℚ) (a : ℚ) : a ≤ l.foldl max a := by
  induction l generalizing a with
  | nil => exact le_refl a
  | cons x l ih => exact le_trans (le_max_left a x) (ih (max a x))

theorem mem_le_foldl_max (l : List ℚ) (a v : ℚ) (h : v ∈ l) : v ≤ l.foldl max a := by
  induction l generalizing a with
  | nil => cases h
  | cons x l ih =>
    rcases List.mem_cons.1 h with rfl | h
    · exact le_trans (le_max_right a v) (init_le_foldl_max l (max a v))
    · exact ih _ h

theorem listMin_le (xs : List ℚ) (v : ℚ) (h : v ∈ xs) : listMin xs ≤ v := by
  cases xs with
  | nil => cases h
  | cons x l =>
    rcases List.mem_cons.1 h with rfl | h
    · exact foldl_min_le_init l v
    · exact foldl_min_le_mem l x v h

theorem le_listMax (xs : List ℚ) (v : ℚ) (h : v ∈ xs) : v ≤ listMax xs := by
  cases xs with
  | nil => cases h
  | cons x l =>
    rcases List.mem_cons.1 h with rfl | h
    · exact init_le_foldl_max l v
    · exact mem_le_foldl_max l x v h

theorem norm_bounds (xs : List ℚ) (v : ℚ) (h : v ∈ xs) :
    0 ≤ (v - listMin xs) /
        (if listMax xs - listMin xs = 0 then 1 else listMax xs - listMin xs) ∧
      (v - listMin xs) /
        (if listMax xs - listMin xs = 0 then 1 else listMax xs - listMin xs) ≤ 1 := by
  have hmin := listMin_le xs v h
  have hmax := le_listMax xs v h
  by_cases h0 : listMax xs - listMin xs = 0
  · rw [if_pos h0]
    have hv : v = listMin xs := le_antisymm (by linarith) hmin
    simp [hv]
  · rw [if_neg h0]
    have hpos : 0 < listMax xs - listMin xs :=
      lt_of_le_of_ne (by linarith) (Ne.symm h0)
    refine ⟨div_nonneg (by linarith) (le_of_lt hpos), ?_⟩
    rw [div_le_one hpos]
    linarith

theorem extractPositions_length (raw : String → ℚ × ℚ) (nodes : List GraphNode)
    (w h : ℚ) : (extractPositions raw nodes w h).length = nodes.length := by
  simp [extractPositions]

theorem extractPositions_bounds (raw : String → ℚ × ℚ) (nodes : List GraphNode)
    (w h : ℚ) (hw : 2 * canvasPadding ≤ w) (hh : 2 * canvasPadding ≤ h) :
    ∀ nd ∈ extractPositions raw nodes w h,
      canvasPadding ≤ nd.x ∧ nd.x ≤ w - canvasPadding ∧
        canvasPadding ≤ nd.y ∧ nd.y ≤ h - canvasPadding := by
  intro nd hnd
  unfold extractPositions at hnd
  simp only [List.mem_map] at hnd
  rcases hnd with ⟨node, hnode, rfl⟩
  have hx := norm_bounds (nodes.map fun n => (raw n.id).1) ((raw node.id).1)
    (List.mem_map_of_mem _ hnode)
  have hy := norm_bounds (nodes.map fun n => (raw n.id).2) ((raw node.id).2)
    (List.mem_map_of_mem _ hnode)
  have hu : (0 : ℚ) ≤ w - 2 * canvasPadding := by linarith
  have hv : (0 : ℚ) ≤ h - 2 * canvasPadding := by linarith
  refine ⟨?_, ?_, ?_, ?_⟩
  · show canvasPadding ≤ canvasPadding + _ * (w - 2 * canvasPadding)
    nlinarith [mul_nonneg hx.1 hu]
  · show canvasPadding + _ * (w - 2 * canvasPadding) ≤ w - canvasPadding
    nlinarith [mul_le_of_le_one_left hu hx.2]
  · show canvasPadding ≤ canvasPadding + _ * (h - 2 * canvasPadding)
    nlinarith [mul_nonneg hy.1 hv]
  · show canvasPadding + _ * (h - 2 * canvasPadding) ≤ h - canvasPadding
    nlinarith [mul_le_of_le_one_left hv hy.2]

theorem fallbackRandomLayout_length (rand : Nat → ℚ) (nodes : List GraphNode)
    (w h : ℚ) : (fallbackRandomLayout rand nodes w h).length = nodes.length := by
  simp [fallbackRandomLayout]

theorem fallbackRandomLayout_bounds (rand : Nat → ℚ) (nodes : List GraphNode)
    (w h : ℚ) (hr : ∀ n, 0 ≤ rand n ∧ rand n < 1)
    (hw : 2 * canvasPadding ≤ w) (hh : 2 * canvasPadding ≤ h) :
    ∀ nd ∈ fallbackRandomLayout rand nodes w h,
      canvasPadding ≤ nd.x ∧ nd.x ≤ w - canvasPadding ∧
        canvasPadding ≤ nd.y ∧ nd.y ≤ h - canvasPadding := by
  intro nd hnd
  unfold fallbackRandomLayout at hnd
  simp only [List.mem_map] at hnd
  rcases hnd with ⟨p, _, rfl⟩
  have hu : (0 : ℚ) ≤ w - 2 * canvasPadding := by linarith
  have hv : (0 : ℚ) ≤ h - 2 * canvasPadding := by linarith
  have h1 := hr (2 * p.1)
  have h2 := hr (2 * p.1 + 1)
  refine ⟨?_, ?_, ?_, ?_⟩
  · show canvasPadding ≤ canvasPadding + rand (2 * p.1) * (w - 2 * canvasPadding)
    nlinarith [mul_nonneg h1.1 hu]
  · show canvasPadding + rand (2 * p.1) * (w - 2 * canvasPadding) ≤ w - canvasPadding
    nlinarith [mul_le_of_le_one_left hu (le_of_lt h1.2)]
  · show canvasPadding ≤ canvasPadding + rand (2 * p.1 + 1) * (h - 2 * canvasPadding)
    nlinarith [mul_nonneg h2.1 hv]
  · show canvasPadding + rand (2 * p.1 + 1) * (h - 2 * canvasPadding) ≤ h - canvasPadding
    nlinarith [mul_le_of_le_one_left hv (le_of_lt h2.2)]

/-! ## Animated layout characterization -/

theorem animateSteps_ok (f : Nat → String → ℚ × ℚ) (nodes : List GraphNode)
    (w h : ℚ) (ips : Nat) : ∀ (fuel k : Nat),
    animateSteps (fun j => Except.ok (f j)) nodes w h ips k fuel =
      { calls := (List.range (fuel + 1)).map fun t =>
          ((k + t + 1) * ips, extractPositions (f (k + t)) nodes w h),
        escaped := false } := by
  intro fuel
  induction fuel with
  | zero =>
    intro k
    unfold animateSteps
    simp [show List.range 1 = [0] from rfl]
  | succ fuel ih =>
    intro k
    unfold animateSteps
    simp only []
    rw [ih (k + 1)]
    have hrange : (List.range (fuel + 1 + 1)).map
        (fun t => ((k + t + 1) * ips, extractPositions (f (k + t)) nodes w h)) =
        ((k + 1) * ips, extractPositions (f k) nodes w h) ::
          (List.range (fuel + 1)).map
            (fun t => ((k + (t + 1) + 1) * ips,
              extractPositions (f (k + (t + 1))) nodes w h)) := by
      rw [List.range_succ_eq_map]
      simp [List.map_map, Function.comp]
    rw [hrange]
    have hmap : (List.range (fuel + 1)).map
        (fun t => ((k + 1 + t + 1) * ips,
          extractPositions (f (k + 1 + t)) nodes w h)) =
        (List.range (fuel + 1)).map
          (fun t => ((k + (t + 1) + 1) * ips,
            extractPositions (f (k + (t + 1))) nodes w h)) := by
      refine List.map_congr_left fun t ht => ?_
      have harith : k + 1 + t = k + (t + 1) := by omega
      rw [harith]
    rw [hmap]

theorem calculateAnimated_ok (f : Nat → String → ℚ × ℚ) (nodes : List GraphNode)
    (w h : ℚ) (steps : Nat) (hn : nodes ≠ []) (hs : 1 ≤ steps) :
    calculateAnimated (fun j => Except.ok (f j)) nodes w h steps =
      { calls := (List.range steps).map fun t =>
          ((t + 1) * iterationsPerStep steps,
            extractPositions (f t) nodes w h),
        escaped := false } := by
  unfold calculateAnimated
  rw [if_neg (by simpa using fun hev => hn (List.length_eq_zero.1 hev))]
  rw [animateSteps_ok]
  have hsteps : steps - 1 + 1 = steps := Nat.sub_add_cancel hs
  rw [hsteps]
  simp

/-! ## Substring scan, related to an explicit decomposition -/

theorem listLeads_iff (t s : List Char) :
    listLeads t s = true ↔ ∃ r, t ++ r = s := by
  induction t generalizing s with
  | nil => simp [listLeads]
  | cons a t ih =>
    cases s with
    | nil => simp [listLeads]
    | cons b s =>
      simp only [listLeads, Bool.and_eq_true, beq_iff_eq, ih]
      constructor
      · rintro ⟨rfl, r, rfl⟩
        exact ⟨r, rfl⟩
      · rintro ⟨r, h⟩
        injection h with h1 h2
        exact ⟨h1, r, h2⟩

theorem listScan_iff (t s : List Char) :
    listScan t s = true ↔ ∃ p q, p ++ t ++ q = s := by
  induction s with
  | nil =>
    show listLeads t [] = true ↔ _
    rw [listLeads_iff]
    constructor
    · rintro ⟨r, h⟩
      exact ⟨[], r, by simpa using h⟩
    · rintro ⟨p, q, h⟩
      rcases List.append_eq_nil.1 h with ⟨h1, rfl⟩
      rcases List.append_eq_nil.1 h1 with ⟨rfl, rfl⟩
      exact ⟨[], by simp⟩
  | cons c s ih =>
    show (listLeads t (c :: s) || listScan t s) = true ↔ _
    rw [Bool.or_eq_true, listLeads_iff, ih]
    constructor
    · rintro (⟨r, h⟩ | ⟨p, q, rfl⟩)
      · exact ⟨[], r, by simpa using h⟩
      · exact ⟨c :: p, q, rfl⟩
    · rintro ⟨p, q, h⟩
      cases p with
      | nil => exact .inl ⟨q, by simpa using h⟩
      | cons d p =>
        injection h with h1 h2
        exact .inr ⟨p, q, h2⟩

theorem strIncludes_iff (s t : String) :
    strIncludes s t = true ↔ ∃ p q, p ++ t.data ++ q = s.data :=
  listScan_iff t.data s.data

theorem hasMatch_symm (g1 g2 : String) : hasMatch g1 g2 = hasMatch g2 g1 := by
  unfold hasMatch
  exact Bool.or_comm _ _

theorem hasMatch_self (g : String) : hasMatch g g = true := by
  unfold hasMatch
  simp only [Bool.or_eq_true]
  exact .inl ((strIncludes_iff _ _).2 ⟨[], [], by simp⟩)

/-! ## Claims -/

/-- C1: in every state reachable by `addSong`/`removeSong`/`clearAll` from
the fresh collection, the connection relation is symmetric:
`areConnected a b` and `areConnected b a` agree for all ids. -/
theorem connection_symmetry (ops : List Op) (a b : String) :
    (runOps ops).areConnected a b = (runOps ops).areConnected b a := by
  rw [areConnected_eq_decide, areConnected_eq_decide]
  exact decide_eq_decide.mpr ((SCInv_runOps ops).connSymm a b)

theorem connection_symmetry_witness :
    (runOps [Op.add songA, Op.add songB]).areConnected "a" "b" =
      (runOps [Op.add songA, Op.add songB]).areConnected "b" "a" :=
  connection_symmetry [Op.add songA, Op.add songB] "a" "b"

/-- C4: `addSong` fails and leaves the state unchanged when the id exists;
on a fresh id it returns `true`, stores the song, and grows the collection
by one. -/
theorem addSong_spec (st : SongCollection) (song : Song) :
    (st.getSong song.id ≠ none → st.addSong song = (false, st)) ∧
      (st.getSong song.id = none →
        (st.addSong song).1 = true ∧
          (st.addSong song).2.getSong song.id = some song ∧
          (st.addSong song).2.songCount = st.songCount + 1) := by
  constructor
  · intro hne
    exact addSong_of_dup st song (Option.ne_none_iff_isSome.1 hne)
  · intro hfresh
    refine ⟨addSong_fst_of_fresh st song hfresh, ?_, ?_⟩
    · show findSong (st.addSong song).2.songs song.id = some song
      rw [addSong_songs_of_fresh st song hfresh]
      exact getSong_append_self st song hfresh
    · show (st.addSong song).2.songs.length = st.songs.length + 1
      rw [addSong_songs_of_fresh st song hfresh]
      simp

theorem addSong_spec_witness :
    SongCollection.addSong ⟨[songA], []⟩ songA = (false, ⟨[songA], []⟩) ∧
      (SongCollection.addSong ⟨[songA], []⟩ songB).1 = true ∧
      (SongCollection.addSong ⟨[songA], []⟩ songB).2.getSong "b" = some songB ∧
      (SongCollection.addSong ⟨[songA], []⟩ songB).2.songCount = 2 :=
  ⟨(addSong_spec ⟨[songA], []⟩ songA).1 (by decide),
    ((addSong_spec ⟨[songA], []⟩ songB).2 (by decide)).1,
    ((addSong_spec ⟨[songA], []⟩ songB).2 (by decide)).2.1,
    ((addSong_spec ⟨[songA], []⟩ songB).2 (by decide)).2.2⟩

/-- C5: `hasMatch` holds exactly when the lower-cased form of one genre is
a contiguous substring of the lower-cased form of the other (hence it is
symmetric and reflexive; "indie rock" matches "rock", "jazz" does not match
"metal"), and `areCompatible` holds exactly when some cross pair matches. -/
theorem genre_match_spec :
    (∀ g1 g2 : String, hasMatch g1 g2 = true ↔
        (∃ p q, p ++ (strToLower g2).data ++ q = (strToLower g1).data) ∨
          (∃ p q, p ++ (strToLower g1).data ++ q = (strToLower g2).data)) ∧
      (∀ g1 g2 : String, hasMatch g1 g2 = hasMatch g2 g1) ∧
      (∀ g : String, hasMatch g g = true) ∧
      hasMatch "indie rock" "rock" = true ∧
      hasMatch "jazz" "metal" = false ∧
      (∀ l1 l2 : List String, areCompatible l1 l2 = true ↔
        ∃ g1 ∈ l1, ∃ g2 ∈ l2, hasMatch g1 g2 = true) := by
  refine ⟨?_, hasMatch_symm, hasMatch_self, by decide, by decide, ?_⟩
  · intro g1 g2
    show (strIncludes (strToLower g1) (strToLower g2) ||
        strIncludes (strToLower g2) (strToLower g1)) = true ↔ _
    rw [Bool.or_eq_true, strIncludes_iff, strIncludes_iff]
  · intro l1 l2
    unfold areCompatible
    simp [List.any_eq_true]

theorem genre_match_spec_witness :
    hasMatch "indie rock" "rock" = true ∧
      hasMatch "rock" "indie rock" = hasMatch "indie rock" "rock" :=
  ⟨genre_match_spec.2.2.2.1, genre_match_spec.2.1 "rock" "indie rock"⟩

/-- C2 counterexample: on a 0×0 canvas a single node is placed at
`x = y = padding = 50`, which is outside the then-empty interval
`[padding, dimension − padding] = [50, −50]`, so the claim is false for
arbitrary canvas dimensions. -/
theorem calculatePositions_smallCanvas_cex :
    ¬ (∀ nd ∈ calculatePositions (Except.ok fun _ => ((0 : ℚ), 0))
          (fun _ => (0 : ℚ)) [nodeA] 0 0,
        canvasPadding ≤ nd.x ∧ nd.x ≤ 0 - canvasPadding) := by
  have hres : calculatePositions (Except.ok fun _ => ((0 : ℚ), 0))
      (fun _ => (0 : ℚ)) [nodeA] 0 0 =
      [{ id := "a", song := songA, x := 50, y := 50, connections := [] }] := by
    norm_num [calculatePositions, extractPositions, listMin, listMax, canvasPadding,
      nodeA]
  intro hall
  have h := hall _ (by rw [hres]; exact List.mem_singleton_self _)
  norm_num [canvasPadding] at h

/-- C2 (amended): for a non-empty node list and canvas dimensions of at
least `2 · padding` on each axis, `calculatePositions` (with the simulation
returning raw positions) yields one node per input node, each inside
`[padding, dimension − padding]` on both axes; the degenerate bounding box
(single node or coincident raw positions) is covered because the range is
replaced by 1. -/
theorem calculatePositions_inBounds (raw : String → ℚ × ℚ) (rand : Nat → ℚ)
    (nodes : List GraphNode) (w h : ℚ) (hn : nodes ≠ [])
    (hw : 2 * canvasPadding ≤ w) (hh : 2 * canvasPadding ≤ h) :
    (calculatePositions (Except.ok raw) rand nodes w h).length = nodes.length ∧
      ∀ nd ∈ calculatePositions (Except.ok raw) rand nodes w h,
        canvasPadding ≤ nd.x ∧ nd.x ≤ w - canvasPadding ∧
          canvasPadding ≤ nd.y ∧ nd.y ≤ h - canvasPadding := by
  have hguard : ¬ nodes.length = 0 := fun hev => hn (List.length_eq_zero.1 hev)
  unfold calculatePositions
  rw [if_neg hguard]
  exact ⟨extractPositions_length raw nodes w h,
    extractPositions_bounds raw nodes w h hw hh⟩

theorem calculatePositions_inBounds_witness :
    (calculatePositions (Except.ok fun _ => ((0 : ℚ), 0)) (fun _ => (0 : ℚ))
        [nodeA] 200 200).length = 1 ∧
      ∀ nd ∈ calculatePositions (Except.ok fun _ => ((0 : ℚ), 0)) (fun _ => (0 : ℚ))
          [nodeA] 200 200,
        canvasPadding ≤ nd.x ∧ nd.x ≤ 200 - canvasPadding ∧
          canvasPadding ≤ nd.y ∧ nd.y ≤ 200 - canvasPadding := by
  have h := calculatePositions_inBounds (fun _ => ((0 : ℚ), 0)) (fun _ => (0 : ℚ))
    [nodeA] 200 200 (by simp) (by norm_num [canvasPadding]) (by norm_num [canvasPadding])
  simpa using h

/-- C6: when the simulation throws, `calculatePositions` swallows the
exception and returns the random fallback: one node per input node, each at
`padding + draw · (dimension − 2 · padding)` with a fresh draw pair, hence
inside the padded canvas whenever the draws are in `[0, 1)` and each canvas
dimension is at least `2 · padding`. -/
theorem calculatePositions_fallback (rand : Nat → ℚ) (nodes : List GraphNode)
    (w h : ℚ) (hr : ∀ n, 0 ≤ rand n ∧ rand n < 1)
    (hw : 2 * canvasPadding ≤ w) (hh : 2 * canvasPadding ≤ h) :
    calculatePositions (Except.error ()) rand nodes w h =
        fallbackRandomLayout rand nodes w h ∧
      (calculatePositions (Except.error ()) rand nodes w h).length = nodes.length ∧
      ∀ nd ∈ calculatePositions (Except.error ()) rand nodes w h,
        canvasPadding ≤ nd.x ∧ nd.x ≤ w - canvasPadding ∧
          canvasPadding ≤ nd.y ∧ nd.y ≤ h - canvasPadding := by
  have hcp : calculatePositions (Except.error ()) rand nodes w h =
      fallbackRandomLayout rand nodes w h := by
    unfold calculatePositions
    by_cases hguard : nodes.length = 0
    · rw [if_pos hguard, List.length_eq_zero.1 hguard]
      rfl
    · rw [if_neg hguard]
  refine ⟨hcp, ?_, ?_⟩
  · rw [hcp]
    exact fallbackRandomLayout_length rand nodes w h
  · rw [hcp]
    exact fallbackRandomLayout_bounds rand nodes w h hr hw hh

theorem calculatePositions_fallback_witness :
    calculatePositions (Except.error ()) (fun _ => (1 : ℚ) / 2) [nodeA] 200 200 =
        fallbackRandomLayout (fun _ => (1 : ℚ) / 2) [nodeA] 200 200 ∧
      (calculatePositions (Except.error ()) (fun _ => (1 : ℚ) / 2) [nodeA] 200 200).length
        = 1 ∧
      ∀ nd ∈ calculatePositions (Except.error ()) (fun _ => (1 : ℚ) / 2) [nodeA] 200 200,
        canvasPadding ≤ nd.x ∧ nd.x ≤ 200 - canvasPadding ∧
          canvasPadding ≤ nd.y ∧ nd.y ≤ 200 - canvasPadding := by
  have h := calculatePositions_fallback (fun _ => (1 : ℚ) / 2) [nodeA] 200 200
    (fun _ => by norm_num) (by norm_num [canvasPadding]) (by norm_num [canvasPadding])
  simpa using h

/-- C7: in every reachable state, `exportGraphNodes` yields one node per
song, and every id in any exported node's connection list is the id of a
song present in the collection. -/
theorem export_spec (ops : List Op) :
    (runOps ops).exportGraphNodes.length = (runOps ops).songCount ∧
      ∀ nd ∈ (runOps ops).exportGraphNodes, ∀ cid ∈ nd.connections,
        ((runOps ops).getSong cid).isSome = true := by
  have hinv := SCInv_runOps ops
  constructor
  · simp [SongCollection.exportGraphNodes, SongCollection.allSongs,
      SongCollection.songCount]
  · intro nd hnd cid hcid
    unfold SongCollection.exportGraphNodes at hnd
    simp only [List.mem_map] at hnd
    rcases hnd with ⟨song, hsong, rfl⟩
    have hconn : ConnMem (runOps ops) song.id cid := hcid
    show (findSong (runOps ops).songs cid).isSome = true
    rw [findSong_isSome_iff]
    exact (hinv.connDom song.id cid hconn).2

theorem export_spec_witness :
    (runOps [Op.add songA, Op.add songB]).exportGraphNodes.length =
        (runOps [Op.add songA, Op.add songB]).songCount ∧
      ((runOps [Op.add songA, Op.add songB]).getSong "b").isSome = true :=
  ⟨(export_spec [Op.add songA, Op.add songB]).1,
    (export_spec [Op.add songA, Op.add songB]).2
      { id := "a", song := songA, x := 0, y := 0, connections := ["b"] }
      (by decide) "b" (by decide)⟩

/-- C3: in every reachable state, `removeSong` on an absent id returns
`false` and changes nothing; on a present id it returns `true`, deletes the
track, leaves no other track's connection set containing the id, and
`getConnectedSongs` on the removed id returns the empty list. -/
theorem removeSong_spec (ops : List Op) (i : String) :
    ((runOps ops).getSong i = none →
        (runOps ops).removeSong i = (false, runOps ops)) ∧
      ((runOps ops).getSong i ≠ none →
        ((runOps ops).removeSong i).1 = true ∧
          ((runOps ops).removeSong i).2.getSong i = none ∧
          (∀ x, ((runOps ops).removeSong i).2.areConnected x i = false) ∧
          ((runOps ops).removeSong i).2.getConnectedSongs i = []) := by
  have hinv := SCInv_runOps ops
  constructor
  · exact removeSong_of_absent (runOps ops) i
  · intro hne
    have hp : ((runOps ops).getSong i).isSome = true :=
      Option.ne_none_iff_isSome.1 hne
    rw [removeSong_of_present (runOps ops) i hp]
    refine ⟨rfl, ?_, ?_, ?_⟩
    · show findSong (removeSongEntry (runOps ops).songs i) i = none
      exact findSong_removeSongEntry_self (runOps ops).songs i hinv.songsNodup
    · intro x
      rw [areConnected_eq_decide]
      simp only [decide_eq_false_iff_not]
      rw [removeAll_ConnMem { runOps ops with songs := removeSongEntry (runOps ops).songs i }
        i hinv.keysNodup hinv.valsNodup x i]
      rintro ⟨_, hii, _⟩
      exact hii rfl
    · have hnone : lookupA
          (SongCollection.removeAllConnectionsForSong
            { runOps ops with songs := removeSongEntry (runOps ops).songs i }
            i).connections i = none := by
        show lookupA ((delA (runOps ops).connections i).map
          fun p => (p.1, p.2.erase i)) i = none
        rw [show lookupA ((delA (runOps ops).connections i).map
              fun p => (p.1, p.2.erase i)) i =
              (lookupA (delA (runOps ops).connections i) i).map (fun l => l.erase i) from
            lookupA_map_val (delA (runOps ops).connections i) i (fun l => l.erase i)]
        rw [lookupA_delA_self _ _ hinv.keysNodup]
        rfl
      simp [SongCollection.getConnectedSongs, hnone]

theorem removeSong_spec_witness :
    (runOps [Op.add songA, Op.add songB]).removeSong "zzz" =
        (false, runOps [Op.add songA, Op.add songB]) ∧
      ((runOps [Op.add songA, Op.add songB]).removeSong "a").1 = true ∧
      ((runOps [Op.add songA, Op.add songB]).removeSong "a").2.getSong "a" = none ∧
      ((runOps [Op.add songA, Op.add songB]).removeSong "a").2.areConnected "b" "a"
        = false ∧
      ((runOps [Op.add songA, Op.add songB]).removeSong "a").2.getConnectedSongs "a"
        = [] :=
  ⟨(removeSong_spec [Op.add songA, Op.add songB] "zzz").1 (by decide),
    ((removeSong_spec [Op.add songA, Op.add songB] "a").2 (by decide)).1,
    ((removeSong_spec [Op.add songA, Op.add songB] "a").2 (by decide)).2.1,
    ((removeSong_spec [Op.add songA, Op.add songB] "a").2 (by decide)).2.2.1 "b",
    ((removeSong_spec [Op.add songA, Op.add songB] "a").2 (by decide)).2.2.2⟩

/-- C8: with a working simulation, `calculateAnimated` on a non-empty node
list with `steps ≥ 1` invokes `onStep` exactly `steps` times; invocation
`i` (0-based) reflects `(i + 1) · ⌈iterations / steps⌉` cumulative
simulation iterations, so successive invocations reflect strictly more
iterations. -/
theorem calculateAnimated_steps (f : Nat → String → ℚ × ℚ)
    (nodes : List GraphNode) (w h : ℚ) (steps : Nat) (hn : nodes ≠ [])
    (hs : 1 ≤ steps) :
    (calculateAnimated (fun j => Except.ok (f j)) nodes w h steps).escaped = false ∧
      (calculateAnimated (fun j => Except.ok (f j)) nodes w h steps).calls.length
        = steps ∧
      (∀ i, i < steps →
        ((calculateAnimated (fun j => Except.ok (f j)) nodes w h steps).calls.getD i
          (0, [])).1 = (i + 1) * iterationsPerStep steps) ∧
      (∀ i j, i < j → j < steps →
        ((calculateAnimated (fun j => Except.ok (f j)) nodes w h steps).calls.getD i
            (0, [])).1 <
          ((calculateAnimated (fun j => Except.ok (f j)) nodes w h steps).calls.getD j
            (0, [])).1) := by
  rw [calculateAnimated_ok f nodes w h steps hn hs]
  have hips : 1 ≤ iterationsPerStep steps := by
    unfold iterationsPerStep layoutIterations
    rw [Nat.one_le_div_iff (by omega)]
    omega
  have hget : ∀ i, i < steps →
      ((((List.range steps).map fun t => ((t + 1) * iterationsPerStep steps,
          extractPositions (f t) nodes w h)).getD i
        ((0 : Nat), ([] : List GraphNode)))).1 = (i + 1) * iterationsPerStep steps := by
    intro i hi
    rw [List.getD_eq_getElem?_getD, List.getElem?_map, List.getElem?_range hi]
    rfl
  refine ⟨rfl, by simp, hget, ?_⟩
  intro i j hij hj
  rw [hget i (lt_trans hij hj), hget j hj]
  exact mul_lt_mul_of_pos_right (by omega) (by omega)

theorem calculateAnimated_steps_witness :
    (calculateAnimated (fun _ => Except.ok fun _ => ((0 : ℚ), 0))
        [nodeA] 800 600 2).escaped = false ∧
      (calculateAnimated (fun _ => Except.ok fun _ => ((0 : ℚ), 0))
        [nodeA] 800 600 2).calls.length = 2 ∧
      ((calculateAnimated (fun _ => Except.ok fun _ => ((0 : ℚ), 0))
        [nodeA] 800 600 2).calls.getD 0 (0, [])).1 = 250 ∧
      ((calculateAnimated (fun _ => Except.ok fun _ => ((0 : ℚ), 0))
          [nodeA] 800 600 2).calls.getD 0 (0, [])).1 <
        ((calculateAnimated (fun _ => Except.ok fun _ => ((0 : ℚ), 0))
          [nodeA] 800 600 2).calls.getD 1 (0, [])).1 := by
  have h := calculateAnimated_steps (fun _ _ => ((0 : ℚ), 0)) [nodeA] 800 600 2
    (by simp) (by omega)
  exact ⟨h.1, h.2.1, h.2.2.1 0 (by omega), h.2.2.2 0 1 (by omega) (by omega)⟩

/-- C9 counterexample: a simulation failure in the first animation frame
escapes `calculateAnimated` (no `try`/`catch` wraps the frame), and
`updateWithNewNodes` propagates a simulation failure verbatim, so "no
layout operation propagates a failure" is false. -/
theorem layout_failure_escape_cex :
    (calculateAnimated (fun _ => Except.error ()) [nodeA] 800 600 50).escaped = true ∧
      updateWithNewNodes (Except.error ()) [nodeA] [] 800 600 = Except.error () := by
  constructor
  · rfl
  · rfl

/-- C9 (amended): only `calculatePositions` is failure-proof — it returns
one position per input node for every simulation outcome; `calculateAnimated`
lets a first-frame simulation failure escape, and `updateWithNewNodes`
returns the simulation failure to its caller. -/
theorem layout_failure_policy :
    (∀ (runSim : Except Unit (String → ℚ × ℚ)) (rand : Nat → ℚ)
        (nodes : List GraphNode) (w h : ℚ),
      (calculatePositions runSim rand nodes w h).length = nodes.length) ∧
      (∀ (chunkSim : Nat → Except Unit (String → ℚ × ℚ)) (nodes : List GraphNode)
          (w h : ℚ) (steps : Nat), nodes ≠ [] → chunkSim 0 = Except.error () →
        (calculateAnimated chunkSim nodes w h steps).escaped = true) ∧
      (∀ (e : Unit) (existingNodes newNodes : List GraphNode) (w h : ℚ),
        updateWithNewNodes (Except.error e) existingNodes newNodes w h =
          Except.error e) := by
  refine ⟨?_, ?_, ?_⟩
  · intro runSim rand nodes w h
    unfold calculatePositions
    by_cases hg : nodes.length = 0
    · rw [if_pos hg]
      simpa using hg.symm
    · rw [if_neg hg]
      cases runSim with
      | error e => exact fallbackRandomLayout_length rand nodes w h
      | ok raw => exact extractPositions_length raw nodes w h
  · intro chunkSim nodes w h steps hn h0
    unfold calculateAnimated
    rw [if_neg (fun hev => hn (List.length_eq_zero.1 hev))]
    unfold animateSteps
    rw [h0]
  · intro e existingNodes newNodes w h
    rfl

theorem layout_failure_policy_witness :
    (calculatePositions (Except.error ()) (fun _ => (0 : ℚ)) [nodeB] 800 600).length
        = 1 ∧
      (calculateAnimated (fun _ => Except.error ()) [nodeB] 800 600 50).escaped
        = true ∧
      updateWithNewNodes (Except.error ()) [] [nodeB] 800 600 = Except.error () := by
  refine ⟨?_, ?_, ?_⟩
  · simpa using layout_failure_policy.1 (Except.error ()) (fun _ => (0 : ℚ))
      [nodeB] 800 600
  · exact layout_failure_policy.2.1 (fun _ => Except.error ()) [nodeB] 800 600 50
      (by simp) rfl
  · exact layout_failure_policy.2.2 () [] [nodeB] 800 600

/-- C10: `exportGraphNodes` sets every exported position to `(0, 0)` in
every state — layout results are never written back into the collection —
and `extractPositions` only rewrites `x`/`y` of the fresh node objects it
returns, leaving id, song, and connection snapshot intact. -/
theorem export_zero_positions :
    (∀ st : SongCollection, ∀ nd ∈ st.exportGraphNodes, nd.x = 0 ∧ nd.y = 0) ∧
      (∀ (raw : String → ℚ × ℚ) (nodes : List GraphNode) (w h : ℚ),
        (extractPositions raw nodes w h).map
            (fun nd => (nd.id, nd.song, nd.connections)) =
          nodes.map fun nd => (nd.id, nd.song, nd.connections)) := by
  constructor
  · intro st nd hnd
    unfold SongCollection.exportGraphNodes at hnd
    simp only [List.mem_map] at hnd
    rcases hnd with ⟨song, _, rfl⟩
    exact ⟨rfl, rfl⟩
  · intro raw nodes w h
    simp only [extractPositions, List.map_map]
    exact List.map_congr_left fun nd _ => rfl

theorem export_zero_positions_witness :
    (({ id := "a", song := songA, x := 0, y := 0, connections := ["b"] } :
        GraphNode).x = 0 ∧
      ({ id := "a", song := songA, x := 0, y := 0, connections := ["b"] } :
        GraphNode).y = 0) ∧
      (extractPositions (fun _ => ((3 : ℚ), 4)) [nodeB] 800 600).map
          (fun nd => (nd.id, nd.song, nd.connections)) =
        [("b", songB, ["a"])] := by
  refine ⟨export_zero_positions.1 (runOps [Op.add songA, Op.add songB]) _ (by decide), ?_⟩
  have h := export_zero_positions.2 (fun _ => ((3 : ℚ), 4)) [nodeB] 800 600
  simpa [nodeB] using h
